import Mathlib

set_option maxHeartbeats 1000000

/-!
Verification of `scripts/score_fmps.py` against its specification.

The script is embedded shallowly: strings are modelled as their
character lists where convenient, Python exceptions as `Option`
(`none` = the call raises), the filesystem as an association list from
path to content, and the remote model call as an oracle supplying each
document's raw reply.  Whitespace is modelled as ASCII whitespace
(space, tab, CR, LF), which is the fragment exercised by the program's
data.
-/

/-- Whitespace test used by Python `str.split()` / `str.strip()` and by the
JSON grammar, modelled on ASCII whitespace. -/
def wsC (c : Char) : Bool := c.isWhitespace

/-! ## Text chunker (`chunk_text`, lines 24-38) -/

/-- Accumulator-based embedding of Python `s.split()`: split on runs of
whitespace, dropping empty words.  `buf` holds the current word reversed. -/
def splitWAux : List Char → List Char → List (List Char)
  | [], buf => if buf = [] then [] else [buf.reverse]
  | c :: cs, buf =>
      if wsC c then
        (if buf = [] then splitWAux cs [] else buf.reverse :: splitWAux cs [])
      else splitWAux cs (c :: buf)

/-- Python `s.split()` on a character list. -/
def splitW (l : List Char) : List (List Char) := splitWAux l []

/-- Python `s.split()` on a string. -/
def pySplit (s : String) : List String := (splitW s.data).map String.mk

/-- Python `" ".join(words)`. -/
def joinSpace : List (List Char) → List Char
  | [] => []
  | [w] => w
  | w :: rest => w ++ ' ' :: joinSpace rest

/-- The chunking loop of `chunk_text`: append each word to `buf`, add
`len(w) + 1` to `size`, and flush the buffer whenever `size >= chunk_size`. -/
def chunkLoop (csz : Nat) : List (List Char) → List (List Char) → Nat → List (List (List Char))
  | [], buf, _ =>
      if buf = [] then [] else [buf]
  | w :: rest, buf, size =>
      let buf' := buf ++ [w]
      let size' := size + w.length + 1
      if csz ≤ size' then buf' :: chunkLoop csz rest [] 0
      else chunkLoop csz rest buf' size'

/-- `chunk_text(s, target_tokens)`: split into words, accumulate chunks of
roughly `target_tokens * 4` characters, and join each chunk with spaces. -/
def chunk_text (s : String) (target_tokens : Nat := 1200) : List String :=
  (chunkLoop (target_tokens * 4) (splitW s.data) [] 0).map (fun c => String.mk (joinSpace c))

theorem chunkLoop_join (csz : Nat) :
    ∀ (rest buf : List (List Char)) (size : Nat),
      (chunkLoop csz rest buf size).flatten = buf ++ rest := by
  intro rest
  induction rest with
  | nil =>
      intro buf size
      by_cases h : buf = [] <;> simp [chunkLoop, h]
  | cons w ws ih =>
      intro buf size
      simp only [chunkLoop]
      by_cases h : csz ≤ size + w.length + 1
      · simp [h, ih]
      · simp [h, ih]

theorem chunkLoop_mem_ne_nil (csz : Nat) :
    ∀ (rest buf : List (List Char)) (size : Nat) (c : List (List Char)),
      c ∈ chunkLoop csz rest buf size → c ≠ [] := by
  intro rest
  induction rest with
  | nil =>
      intro buf size c hc
      by_cases h : buf = [] <;> simp [chunkLoop, h] at hc
      subst hc; exact h
  | cons w ws ih =>
      intro buf size c hc
      simp only [chunkLoop] at hc
      by_cases h : csz ≤ size + w.length + 1
      · simp [h] at hc
        rcases hc with hc | hc
        · subst hc; simp
        · exact ih [] 0 c hc
      · simp [h] at hc
        exact ih (buf ++ [w]) (size + w.length + 1) c hc

/-- Words produced by `splitWAux` are non-empty and whitespace-free. -/
theorem splitWAux_good :
    ∀ (l buf : List Char), (∀ c ∈ buf, wsC c = false) →
      ∀ w ∈ splitWAux l buf, w ≠ [] ∧ ∀ c ∈ w, wsC c = false := by
  intro l
  induction l with
  | nil =>
      intro buf hbuf w hw
      by_cases h : buf = []
      · simp [splitWAux, h] at hw
      · simp only [splitWAux, if_neg h, List.mem_singleton] at hw
        subst hw
        refine ⟨by simpa using h, ?_⟩
        intro c hc
        exact hbuf c (List.mem_reverse.mp hc)
  | cons c cs ih =>
      intro buf hbuf w hw
      simp only [splitWAux] at hw
      by_cases hws : wsC c
      · simp only [hws, if_true] at hw
        by_cases hb : buf = []
        · simp only [hb, if_pos rfl] at hw
          exact ih [] (by simp) w hw
        · simp only [if_neg hb, List.mem_cons] at hw
          rcases hw with hw | hw
          · subst hw
            refine ⟨by simpa using hb, ?_⟩
            intro x hx
            exact hbuf x (List.mem_reverse.mp hx)
          · exact ih [] (by simp) w hw
      · simp only [hws] at hw
        refine ih (c :: buf) ?_ w (by simpa using hw)
        intro x hx
        rcases List.mem_cons.mp hx with h | h
        · subst h; simpa using hws
        · exact hbuf x h

/-- Scanning a whitespace-free word just moves it into the buffer. -/
theorem splitWAux_word (w : List Char) (hw : ∀ c ∈ w, wsC c = false) :
    ∀ (cs buf : List Char), splitWAux (w ++ cs) buf = splitWAux cs (w.reverse ++ buf) := by
  induction w with
  | nil => intro cs buf; simp
  | cons c w' ih =>
      intro cs buf
      have hc : wsC c = false := hw c (by simp)
      have hw' : ∀ x ∈ w', wsC x = false := fun x hx => hw x (by simp [hx])
      rw [show (c :: w') ++ cs = c :: (w' ++ cs) from rfl]
      rw [show splitWAux (c :: (w' ++ cs)) buf = splitWAux (w' ++ cs) (c :: buf) by
        simp [splitWAux, hc]]
      rw [ih hw' cs (c :: buf)]
      simp

/-- Splitting a space-join of good words recovers the words. -/
theorem splitW_joinSpace :
    ∀ (chunks : List (List Char)),
      (∀ w ∈ chunks, w ≠ [] ∧ ∀ c ∈ w, wsC c = false) →
      splitW (joinSpace chunks) = chunks := by
  intro chunks
  induction chunks with
  | nil => intro _; rfl
  | cons w rest ih =>
      intro hgood
      have hw := hgood w (by simp)
      cases rest with
      | nil =>
          have h1 := splitWAux_word w hw.2 [] []
          simp only [List.append_nil] at h1
          show splitW w = [w]
          unfold splitW
          rw [h1]
          simp [splitWAux, hw.1]
      | cons w' rest' =>
          show splitWAux (w ++ ' ' :: joinSpace (w' :: rest')) [] = w :: (w' :: rest')
          rw [splitWAux_word w hw.2]
          have hrev : ¬(w.reverse ++ [] = []) := by simpa using hw.1
          simp only [splitWAux, show wsC ' ' = true from rfl, if_true, if_neg hrev]
          rw [show splitWAux (joinSpace (w' :: rest')) [] = w' :: rest' from
            ih (fun x hx => hgood x (by simp [hx]))]
          simp

/-- Reconstructing the words from the joined chunks gives back the input words. -/
theorem chunkLoop_words (csz : Nat) (words : List (List Char))
    (hgood : ∀ w ∈ words, w ≠ [] ∧ ∀ c ∈ w, wsC c = false) :
    ((chunkLoop csz words [] 0).map (fun c => splitW (joinSpace c))).flatten = words := by
  have hsub : ∀ c ∈ chunkLoop csz words [] 0,
      (fun c => splitW (joinSpace c)) c = id c := by
    intro c hc
    show splitW (joinSpace c) = c
    apply splitW_joinSpace
    intro w hw
    apply hgood
    have hmem : w ∈ (chunkLoop csz words [] 0).flatten := List.mem_flatten.mpr ⟨c, hc, hw⟩
    rw [chunkLoop_join] at hmem
    simpa using hmem
  rw [List.map_congr_left hsub, List.map_id]
  have := chunkLoop_join csz words [] 0
  simpa using this

/-- Bridge between characters and strings: `String.mk` preserves length. -/
theorem length_mk (l : List Char) : (String.mk l).length = l.length := rfl

/-- C1: for every input string and positive budget, the chunks' words
concatenated in order reproduce the whitespace-split word sequence of the
input; a word-containing input yields at least one chunk; an empty or
all-whitespace input yields no chunks. -/
theorem chunk_text_reconstructs (s : String) (t : Nat) (ht : 0 < t) :
    (((chunk_text s t).map pySplit).flatten = pySplit s)
    ∧ (pySplit s ≠ [] → chunk_text s t ≠ [])
    ∧ (pySplit s = [] → chunk_text s t = []) := by
  have hgood : ∀ w ∈ splitW s.data, w ≠ [] ∧ ∀ c ∈ w, wsC c = false :=
    splitWAux_good s.data [] (by simp)
  refine ⟨?_, ?_, ?_⟩
  · unfold chunk_text
    rw [List.map_map]
    have heq : ∀ c ∈ chunkLoop (t * 4) (splitW s.data) [] 0,
        (pySplit ∘ fun c => String.mk (joinSpace c)) c
          = (List.map String.mk ∘ fun c => splitW (joinSpace c)) c := by
      intro c _
      rfl
    rw [List.map_congr_left heq, ← List.map_map, ← List.map_flatten,
      chunkLoop_words (t * 4) (splitW s.data) hgood]
    rfl
  · intro hne hempty
    have hw : splitW s.data ≠ [] := by
      intro h
      exact hne (by simp [pySplit, h])
    unfold chunk_text at hempty
    rw [List.map_eq_nil_iff] at hempty
    have := chunkLoop_join (t * 4) (splitW s.data) [] 0
    rw [hempty] at this
    exact hw (by simpa using this.symm)
  · intro hnil
    have hw : splitW s.data = [] := by
      have := congrArg List.length hnil
      simpa [pySplit] using this
    unfold chunk_text
    rw [hw]
    rfl

/-- Witness for C1 at a concrete input. -/
theorem chunk_text_reconstructs_witness :
    0 < 1
    ∧ ((((chunk_text "hello world" 1).map pySplit).flatten = pySplit "hello world")
    ∧ (pySplit "hello world" ≠ [] → chunk_text "hello world" 1 ≠ [])
    ∧ (pySplit "hello world" = [] → chunk_text "hello world" 1 = [])) :=
  ⟨by decide, chunk_text_reconstructs "hello world" 1 (by decide)⟩

/-! ## C4: sizes of non-final chunks -/

/-- The accumulated `size` counter of the chunk loop for a buffer: each word
contributes its length plus one (the counted separator). -/
def wsize (c : List (List Char)) : Nat := (c.map (fun w => w.length + 1)).sum

theorem wsize_append_one (buf : List (List Char)) (w : List Char) :
    wsize (buf ++ [w]) = wsize buf + (w.length + 1) := by
  simp [wsize]

/-- Every chunk flushed inside the loop (all but possibly the last) was closed
with accumulated size at least the chunk budget. -/
theorem chunkLoop_closed_size (csz : Nat) :
    ∀ (rest buf : List (List Char)) (size : Nat), size = wsize buf →
      ∀ c ∈ (chunkLoop csz rest buf size).dropLast, csz ≤ wsize c := by
  intro rest
  induction rest with
  | nil =>
      intro buf size _ c hc
      by_cases h : buf = [] <;> simp [chunkLoop, h] at hc
  | cons w ws ih =>
      intro buf size hs c hc
      simp only [chunkLoop] at hc
      by_cases h : csz ≤ size + w.length + 1
      · simp only [if_pos h] at hc
        cases hrec : chunkLoop csz ws [] 0 with
        | nil => rw [hrec] at hc; simp at hc
        | cons a as =>
            rw [hrec] at hc
            have hdl : ((buf ++ [w]) :: a :: as).dropLast
                = (buf ++ [w]) :: (a :: as).dropLast := rfl
            rw [hdl, List.mem_cons] at hc
            rcases hc with hc | hc
            · subst hc
              rw [wsize_append_one, ← hs]
              omega
            · refine ih [] 0 rfl c ?_
              rw [hrec]
              exact hc
      · simp only [if_neg h] at hc
        refine ih (buf ++ [w]) (size + w.length + 1) ?_ c hc
        rw [wsize_append_one, hs]
        omega

/-- The joined chunk is one character shorter than its accumulated size. -/
theorem joinSpace_length :
    ∀ (c : List (List Char)), c ≠ [] → (joinSpace c).length + 1 = wsize c := by
  intro c
  induction c with
  | nil => intro h; exact absurd rfl h
  | cons w rest ih =>
      intro _
      cases rest with
      | nil => simp [joinSpace, wsize]
      | cons w' rest' =>
          have hr := ih (by simp)
          show (w ++ ' ' :: joinSpace (w' :: rest')).length + 1 = wsize (w :: w' :: rest')
          have : wsize (w :: w' :: rest') = (w.length + 1) + wsize (w' :: rest') := by
            simp [wsize]
          rw [this, ← hr]
          simp
          omega

/-- C4 (amended): every chunk except possibly the last has accumulated
character count (its length plus the counted trailing separator) at least
`target_tokens * 4`; equivalently its character length is at least
`target_tokens * 4 - 1`. -/
theorem chunk_min_length_amended (s : String) (t : Nat) (c : String)
    (hc : c ∈ (chunk_text s t).dropLast) : t * 4 ≤ c.length + 1 := by
  unfold chunk_text at hc
  rw [← List.map_dropLast] at hc
  obtain ⟨wc, hwc, rfl⟩ := List.mem_map.mp hc
  have h1 : t * 4 ≤ wsize wc := chunkLoop_closed_size (t * 4) _ [] 0 rfl wc hwc
  have h2 : wc ≠ [] :=
    chunkLoop_mem_ne_nil (t * 4) _ [] 0 wc (List.dropLast_subset _ hwc)
  have h3 := joinSpace_length wc h2
  rw [length_mk, h3]
  exact h1

/-- Witness for C4's amended bound at a concrete input. -/
theorem chunk_min_length_amended_witness :
    ("abc" ∈ (chunk_text "abc de" 1).dropLast) ∧ 1 * 4 ≤ "abc".length + 1 :=
  ⟨by decide, chunk_min_length_amended "abc de" 1 "abc" (by decide)⟩

/-- Input exhibiting a non-final chunk of length 4799 under the default
budget: one 4799-character word followed by a one-character word. -/
def c4Input : String := String.mk (List.replicate 4799 'x' ++ [' ', 'z'])

/-- One step of `splitWAux` on a whitespace character with a non-empty buffer. -/
theorem splitWAux_ws_cons (c : Char) (hc : wsC c = true) (cs buf : List Char)
    (hb : ¬(buf = [])) : splitWAux (c :: cs) buf = buf.reverse :: splitWAux cs [] := by
  simp [splitWAux, hc, hb]

/-- One step of `splitWAux` on a non-whitespace character. -/
theorem splitWAux_nonws_cons (c : Char) (hc : wsC c = false) (cs buf : List Char) :
    splitWAux (c :: cs) buf = splitWAux cs (c :: buf) := by
  simp [splitWAux, hc]

/-- Final flush of `splitWAux` on a non-empty buffer. -/
theorem splitWAux_nil_flush (buf : List Char) (hb : ¬(buf = [])) :
    splitWAux [] buf = [buf.reverse] := by
  simp [splitWAux, hb]

/-- C4 (counterexample to the stated bound): with the default budget of 1200
tokens, `chunk_text` can close a non-final chunk of character length 4799,
which is less than `target_tokens * 4 = 4800`. -/
theorem chunk_len_4800_cex :
    (chunk_text c4Input 1200).map String.length = [4799, 1]
    ∧ ¬(1200 * 4 ≤ 4799) := by
  constructor
  · have hx : ∀ c ∈ List.replicate 4799 'x', wsC c = false := by
      intro c hc
      rw [List.eq_of_mem_replicate hc]; rfl
    have hrev : ¬((List.replicate 4799 'x').reverse = []) := by
      intro h
      have h2 := congrArg List.length h
      simp only [List.length_reverse, List.length_replicate, List.length_nil] at h2
      exact absurd h2 (by norm_num)
    have hsplit : splitW c4Input.data = [List.replicate 4799 'x', ['z']] := by
      show splitWAux (List.replicate 4799 'x' ++ [' ', 'z']) [] = _
      rw [splitWAux_word _ hx, List.append_nil,
        splitWAux_ws_cons ' ' rfl _ _ hrev,
        splitWAux_nonws_cons 'z' rfl,
        splitWAux_nil_flush ['z'] (by simp),
        List.reverse_reverse]
      rfl
    have h2 : chunkLoop 4800 [List.replicate 4799 'x', ['z']] [] 0
        = [[List.replicate 4799 'x'], [['z']]] := by
      rw [show chunkLoop 4800 [List.replicate 4799 'x', ['z']] [] 0
          = [] ++ [List.replicate 4799 'x'] :: chunkLoop 4800 [['z']] [] 0 by
        simp only [chunkLoop, List.length_replicate]
        norm_num]
      rw [show chunkLoop 4800 [['z']] [] 0 = [[['z']]] by
        simp only [chunkLoop, List.length_singleton]
        norm_num]
      rfl
    unfold chunk_text
    rw [hsplit]
    norm_num
    rw [h2]
    rw [show List.map (String.length ∘ fun c => String.mk (joinSpace c))
        [[List.replicate 4799 'x'], [['z']]]
        = [(List.replicate 4799 'x').length, 1] from rfl]
    rw [List.length_replicate]
  · decide

/-! ## JSON values -/

/-- JSON values as parsed by Python `json.loads`.  Integer lexemes become
`num`; number lexemes with a fraction or exponent (Python floats) are kept
as their lexeme text in `flt`, since no claim computes with them. -/
inductive Json where
  | null : Json
  | bool : Bool → Json
  | num : Int → Json
  | flt : String → Json
  | str : String → Json
  | arr : List Json → Json
  | obj : List (String × Json) → Json

/-- A Python dict with string keys and JSON values, in insertion order. -/
abbrev Dict := List (String × Json)

/-- Python dict assignment `d[k] = v`: update in place when the key is
present (keeping its position), else append. -/
def dictInsert (d : Dict) (k : String) (v : Json) : Dict :=
  if d.any (fun kv => kv.1 == k) then
    d.map (fun kv => if kv.1 == k then (k, v) else kv)
  else d ++ [(k, v)]

/-- Python dict lookup `d[k]`, as an `Option` (`none` = `KeyError`). -/
def jsonGet (d : Dict) (k : String) : Option Json :=
  (d.find? (fun kv => kv.1 == k)).map Prod.snd

/-! ## JSON parser (model of Python `json.loads`) -/

/-- JSON whitespace (space, tab, LF, CR). -/
def jsonWsChar (c : Char) : Bool := c = ' ' || c = '\t' || c = '\n' || c = '\r'

def skipWs (l : List Char) : List Char := l.dropWhile jsonWsChar

def isDigitC (c : Char) : Bool := '0' ≤ c && c ≤ '9'

def digitVal (c : Char) : Nat := c.toNat - '0'.toNat

def digitsToNat (ds : List Char) : Nat := ds.foldl (fun a c => a * 10 + digitVal c) 0

def hexVal (c : Char) : Option Nat :=
  if '0' ≤ c ∧ c ≤ '9' then some (c.toNat - '0'.toNat)
  else if 'a' ≤ c ∧ c ≤ 'f' then some (c.toNat - 'a'.toNat + 10)
  else if 'A' ≤ c ∧ c ≤ 'F' then some (c.toNat - 'A'.toNat + 10)
  else none

/-- Decode the body of a JSON string after the opening quote, strict mode:
raw control characters are rejected, recognised escapes are decoded, a
`\uXXXX` high/low surrogate pair is combined, and other `\uXXXX` escapes go
through `Char.ofNat` (which sends lone surrogates to NUL; acceptance agrees
with Python, only the decoded character of a lone surrogate differs). -/
def parseStrBody : Nat → List Char → Option (List Char × List Char)
  | 0, _ => none
  | _, [] => none
  | fuel + 1, c :: rest =>
    if c = '"' then some ([], rest)
    else if c = '\\' then
      match rest with
      | [] => none
      | e :: r2 =>
        if e = '"' ∨ e = '\\' ∨ e = '/' then
          (parseStrBody fuel r2).map (fun p => (e :: p.1, p.2))
        else if e = 'b' then (parseStrBody fuel r2).map (fun p => ('\x08' :: p.1, p.2))
        else if e = 'f' then (parseStrBody fuel r2).map (fun p => ('\x0c' :: p.1, p.2))
        else if e = 'n' then (parseStrBody fuel r2).map (fun p => ('\n' :: p.1, p.2))
        else if e = 'r' then (parseStrBody fuel r2).map (fun p => ('\r' :: p.1, p.2))
        else if e = 't' then (parseStrBody fuel r2).map (fun p => ('\t' :: p.1, p.2))
        else if e = 'u' then
          match r2 with
          | h1 :: h2 :: h3 :: h4 :: r3 =>
            match hexVal h1, hexVal h2, hexVal h3, hexVal h4 with
            | some a, some b, some c2, some d =>
              let n := ((a * 16 + b) * 16 + c2) * 16 + d
              if 0xD800 ≤ n ∧ n < 0xDC00 then
                match r3 with
                | '\\' :: 'u' :: g1 :: g2 :: g3 :: g4 :: r4 =>
                  match hexVal g1, hexVal g2, hexVal g3, hexVal g4 with
                  | some p1, some p2, some p3, some p4 =>
                    let m := ((p1 * 16 + p2) * 16 + p3) * 16 + p4
                    if 0xDC00 ≤ m ∧ m < 0xE000 then
                      (parseStrBody fuel r4).map (fun p =>
                        (Char.ofNat (0x10000 + (n - 0xD800) * 0x400 + (m - 0xDC00)) :: p.1,
                          p.2))
                    else (parseStrBody fuel r3).map (fun p => (Char.ofNat n :: p.1, p.2))
                  | _, _, _, _ =>
                    (parseStrBody fuel r3).map (fun p => (Char.ofNat n :: p.1, p.2))
                | _ => (parseStrBody fuel r3).map (fun p => (Char.ofNat n :: p.1, p.2))
              else (parseStrBody fuel r3).map (fun p => (Char.ofNat n :: p.1, p.2))
            | _, _, _, _ => none
          | _ => none
        else none
    else if c.toNat < 0x20 then none
    else (parseStrBody fuel rest).map (fun p => (c :: p.1, p.2))

def takeDigits (l : List Char) : List Char × List Char :=
  (l.takeWhile isDigitC, l.dropWhile isDigitC)

/-- Optional fraction part `.[0-9]+`; nothing is consumed when it is absent
or malformed (the regex group simply fails to match). -/
def parseFracPart : List Char → List Char × List Char
  | '.' :: r =>
      match takeDigits r with
      | ([], _) => ([], '.' :: r)
      | (ds, r2) => ('.' :: ds, r2)
  | l => ([], l)

/-- Optional exponent part `[eE][+-]?[0-9]+`; nothing is consumed when it is
absent or malformed. -/
def parseExpPart : List Char → List Char × List Char
  | [] => ([], [])
  | c :: r =>
      if c = 'e' ∨ c = 'E' then
        match r with
        | [] => ([], [c])
        | s :: r2 =>
            if s = '+' ∨ s = '-' then
              match takeDigits r2 with
              | ([], _) => ([], c :: r)
              | (ds, r3) => (c :: s :: ds, r3)
            else
              match takeDigits r with
              | ([], _) => ([], c :: r)
              | (ds, r3) => (c :: ds, r3)
      else ([], c :: r)

/-- Parse a JSON number at the head of the input, following the grammar
`-?(0|[1-9][0-9]*)(\.[0-9]+)?([eE][+-]?[0-9]+)?`. -/
def parseNum (l : List Char) : Option (Json × List Char) :=
  let sign : Bool := match l with
    | '-' :: _ => true
    | _ => false
  let l1 := match l with
    | '-' :: r => r
    | _ => l
  match l1 with
  | [] => none
  | c :: r =>
    let intPart : Option (List Char × List Char) :=
      if c = '0' then some (['0'], r)
      else if isDigitC c then
        let (ds, r2) := takeDigits r
        some (c :: ds, r2)
      else none
    match intPart with
    | none => none
    | some (ids, r2) =>
      let (fds, r3) := parseFracPart r2
      let (eds, r4) := parseExpPart r3
      if fds = [] ∧ eds = [] then
        let n : Int := Int.ofNat (digitsToNat ids)
        some (.num (if sign then -n else n), r4)
      else
        some (.flt (String.mk ((if sign then ['-'] else []) ++ ids ++ fds ++ eds)), r4)

mutual

/-- Parse one JSON value at the head of the input (no leading whitespace);
`NaN`, `Infinity` and `-Infinity` are accepted as Python does by default. -/
def parseVal : Nat → List Char → Option (Json × List Char)
  | 0, _ => none
  | fuel + 1, l =>
    match l with
    | [] => none
    | c :: r =>
      if c = '\x7b' then parseObjBody fuel (skipWs r)
      else if c = '[' then parseArrBody fuel (skipWs r)
      else if c = '"' then
        (parseStrBody (r.length + 1) r).map (fun p => (.str (String.mk p.1), p.2))
      else if c = 't' then
        match r with
        | 'r' :: 'u' :: 'e' :: r2 => some (.bool true, r2)
        | _ => none
      else if c = 'f' then
        match r with
        | 'a' :: 'l' :: 's' :: 'e' :: r2 => some (.bool false, r2)
        | _ => none
      else if c = 'n' then
        match r with
        | 'u' :: 'l' :: 'l' :: r2 => some (.null, r2)
        | _ => none
      else if c = 'N' then
        match r with
        | 'a' :: 'N' :: r2 => some (.flt "NaN", r2)
        | _ => none
      else if c = 'I' then
        match r with
        | 'n' :: 'f' :: 'i' :: 'n' :: 'i' :: 't' :: 'y' :: r2 => some (.flt "Infinity", r2)
        | _ => none
      else if c = '-' then
        match r with
        | 'I' :: 'n' :: 'f' :: 'i' :: 'n' :: 'i' :: 't' :: 'y' :: r2 =>
            some (.flt "-Infinity", r2)
        | _ => parseNum (c :: r)
      else parseNum (c :: r)

/-- Parse an object just after `\x7b` and surrounding whitespace. -/
def parseObjBody : Nat → List Char → Option (Json × List Char)
  | 0, _ => none
  | fuel + 1, l =>
    match l with
    | '\x7d' :: r => some (.obj [], r)
    | _ => parseMembers fuel l []

/-- Parse object members (expects a key); duplicate keys overwrite in place
as Python dict assignment does. -/
def parseMembers : Nat → List Char → Dict → Option (Json × List Char)
  | 0, _, _ => none
  | fuel + 1, l, acc =>
    match l with
    | '"' :: r =>
      match parseStrBody (r.length + 1) r with
      | none => none
      | some (ks, r1) =>
        match skipWs r1 with
        | ':' :: r2 =>
          match parseVal fuel (skipWs r2) with
          | none => none
          | some (v, r3) =>
            match skipWs r3 with
            | ',' :: r4 => parseMembers fuel (skipWs r4) (dictInsert acc (String.mk ks) v)
            | '\x7d' :: r4 => some (.obj (dictInsert acc (String.mk ks) v), r4)
            | _ => none
        | _ => none
    | _ => none

/-- Parse an array just after `[` and surrounding whitespace. -/
def parseArrBody : Nat → List Char → Option (Json × List Char)
  | 0, _ => none
  | fuel + 1, l =>
    match l with
    | ']' :: r => some (.arr [], r)
    | _ => parseElems fuel l []

/-- Parse array elements (expects a value). -/
def parseElems : Nat → List Char → List Json → Option (Json × List Char)
  | 0, _, _ => none
  | fuel + 1, l, acc =>
    match parseVal fuel l with
    | none => none
    | some (v, r) =>
      match skipWs r with
      | ',' :: r2 => parseElems fuel (skipWs r2) (acc ++ [v])
      | ']' :: r2 => some (.arr (acc ++ [v]), r2)
      | _ => none

end

/-- Model of Python `json.loads`: skip surrounding whitespace, parse one
value, and require the remainder to be empty.  The fuel bound comfortably
exceeds the recursion depth any input of this length can force. -/
def json_loads_list (l : List Char) : Option Json :=
  match parseVal (2 * l.length + 2) (skipWs l) with
  | some (v, r) => if skipWs r = [] then some v else none
  | none => none

def json_loads (s : String) : Option Json := json_loads_list s.data

/-! ## Response parser (`parse_possible_json`, lines 92-106) -/

/-- Python `str.lstrip()`. -/
def lstrip (l : List Char) : List Char := l.dropWhile wsC

/-- Python `str.rstrip()`. -/
def rstrip (l : List Char) : List Char := (l.reverse.dropWhile wsC).reverse

/-- Python `str.strip()`. -/
def pyStrip (l : List Char) : List Char := rstrip (lstrip l)

def fenceHeadChars : List Char := "```json".data

/-- Removal of a leading match of the regex alternative `^```json\s*`. -/
def dropFenceHead (l : List Char) : List Char :=
  if l.take 7 = fenceHeadChars then (l.drop 7).dropWhile wsC else l

/-- Removal of a trailing match of the regex alternative `` \s*```$ ``
(without `re.M`, `$` matches at the end or just before a final newline). -/
def dropFenceTail (l : List Char) : List Char :=
  if l.reverse.take 3 = "```".data.reverse then rstrip (l.reverse.drop 3).reverse
  else if l.reverse.take 4 = "```\n".data.reverse then
    rstrip (l.reverse.drop 4).reverse ++ ['\n']
  else l

/-- The greedy trailing-object search `re.search` of `\x7b.*\x7d\s*\Z` with
`re.S`: when some `\x7d` is followed by nothing but whitespace, the match
spans from the first `\x7b` of the text to the very end of the string. -/
def braceCand (l : List Char) : Option (List Char) :=
  match l.dropWhile (fun c => !(c == '\x7b')) with
  | [] => none
  | c :: t =>
      if 2 ≤ (rstrip (c :: t)).length ∧ (rstrip (c :: t)).getLast? = some '\x7d'
      then some (c :: t) else none

/-- `parse_possible_json` on a character list: strip, raise on empty, strip a
markdown fence and strip again, extract the greedy trailing brace span when
the text does not begin with `\x7b`, then strict-parse the candidate. -/
def ppjList (l : List Char) : Option Json :=
  let s0 := pyStrip l
  if s0 = [] then none
  else
    let s1 := pyStrip (dropFenceTail (dropFenceHead s0))
    let cand := if s1.head? = some '\x7b' then s1 else (braceCand s1).getD s1
    json_loads_list cand

/-- `parse_possible_json(s)`; `none` models raising (empty input or a
`json.JSONDecodeError`). -/
def parse_possible_json (s : String) : Option Json := ppjList s.data

/-! ### List plumbing for the response-parser proofs -/

theorem data_append (a b : String) : (a ++ b).data = a.data ++ b.data := by
  cases a; cases b; rfl

theorem dropWhile_eq_self_of_head (f : Char → Bool) (l : List Char) (c : Char)
    (h : l.head? = some c) (hc : f c = false) : List.dropWhile f l = l := by
  cases l with
  | nil => simp at h
  | cons a t =>
      have : a = c := by simpa using h
      subst this
      simp [List.dropWhile_cons, hc]

theorem dropWhile_append_of_suffix_head (f : Char → Bool) (A B : List Char) (c : Char)
    (hB : B.head? = some c) (hc : f c = false) :
    List.dropWhile f (A ++ B) = List.dropWhile f A ++ B := by
  rw [List.dropWhile_append]
  by_cases h : (List.dropWhile f A).isEmpty = true
  · rw [if_pos h, dropWhile_eq_self_of_head f B c hB hc]
    have hA : List.dropWhile f A = [] := by simpa [List.isEmpty_iff] using h
    rw [hA, List.nil_append]
  · rw [if_neg h]

theorem head?_append_left (A B : List Char) (c : Char) (h : A.head? = some c) :
    (A ++ B).head? = some c := by
  cases A with
  | nil => simp at h
  | cons a t => simpa using h

theorem getLast?_append_right (A B : List Char) (c : Char) (h : B.getLast? = some c) :
    (A ++ B).getLast? = some c := by
  rw [List.getLast?_append, h]
  rfl

theorem dropWhile_idem (f : Char → Bool) (l : List Char) :
    List.dropWhile f (List.dropWhile f l) = List.dropWhile f l := by
  induction l with
  | nil => rfl
  | cons c t ih =>
      by_cases h : f c
      · simp [List.dropWhile_cons, h, ih]
      · simp [List.dropWhile_cons, h]

theorem allWs_dropWhile_nil (W : List Char) (h : ∀ c ∈ W, wsC c = true) :
    List.dropWhile wsC W = [] := List.dropWhile_eq_nil_iff.mpr h

theorem rstrip_append_allws (X W : List Char) (h : ∀ c ∈ W, wsC c = true) :
    rstrip (X ++ W) = rstrip X := by
  unfold rstrip
  rw [List.reverse_append]
  have hW : List.dropWhile wsC W.reverse = [] := by
    apply allWs_dropWhile_nil
    intro c hc
    exact h c (List.mem_reverse.mp hc)
  rw [List.dropWhile_append, if_pos (by simp [hW])]

theorem rstrip_of_last (X : List Char) (c : Char) (hc : X.getLast? = some c)
    (hw : wsC c = false) : rstrip X = X := by
  have h1 : X.reverse.head? = some c := by rw [List.head?_reverse, hc]
  have h2 : List.dropWhile wsC X.reverse = X.reverse :=
    dropWhile_eq_self_of_head wsC X.reverse c h1 hw
  unfold rstrip
  rw [h2, List.reverse_reverse]

/-- A leading `` ```json `` match forces at least seven prose characters,
since the seventh-from-start character of the fence pattern is never the
object's opening brace. -/
theorem fence_no_brace (P J : List Char)
    (hJ : J.head? = some '\x7b') (hF : (P ++ J).take 7 = fenceHeadChars) :
    7 ≤ P.length := by
  by_contra hlt
  push_neg at hlt
  have h0 : (P ++ J)[P.length]? = some '\x7b' := by
    rw [List.getElem?_append_right (le_refl _), Nat.sub_self]
    cases J with
    | nil => simp at hJ
    | cons a t => simpa using hJ
  have h1 : ((P ++ J).take 7)[P.length]? = some '\x7b' := by
    rw [List.getElem?_take, if_pos hlt, h0]
  rw [hF] at h1
  set k := P.length with hk
  interval_cases k <;> exact absurd h1 (by decide)

/-- After the two fence-strip steps and the re-strip, prose-then-object text
keeps the shape `prose' ++ object` with the prose still brace-free and
left-stripped. -/
theorem fence_strip_form (P1 J : List Char)
    (hP1 : ∀ c ∈ P1, ¬(c = '\x7b'))
    (hP1s : List.dropWhile wsC P1 = P1)
    (hJ0 : J.head? = some '\x7b') (hJ1 : J.getLast? = some '\x7d') :
    ∃ P2, pyStrip (dropFenceTail (dropFenceHead (P1 ++ J))) = P2 ++ J
      ∧ (∀ c ∈ P2, ¬(c = '\x7b')) ∧ List.dropWhile wsC P2 = P2 := by
  have hstep : ∃ P2, dropFenceHead (P1 ++ J) = P2 ++ J
      ∧ (∀ c ∈ P2, ¬(c = '\x7b')) ∧ List.dropWhile wsC P2 = P2 := by
    by_cases hF : (P1 ++ J).take 7 = fenceHeadChars
    · have h7 : 7 ≤ P1.length := fence_no_brace P1 J hJ0 hF
      refine ⟨List.dropWhile wsC (P1.drop 7), ?_, ?_, dropWhile_idem wsC _⟩
      · unfold dropFenceHead
        rw [if_pos hF, List.drop_append_eq_append_drop,
          show 7 - P1.length = 0 from by omega, List.drop_zero]
        exact dropWhile_append_of_suffix_head wsC _ J '\x7b' hJ0 rfl
      · intro c hc
        have hc1 : c ∈ P1.drop 7 := (List.dropWhile_sublist wsC).subset hc
        exact hP1 c (List.drop_subset 7 P1 hc1)
    · exact ⟨P1, by unfold dropFenceHead; rw [if_neg hF], hP1, hP1s⟩
  obtain ⟨P2, hdh, hP2, hP2s⟩ := hstep
  have hrevhead : (P2 ++ J).reverse.head? = some '\x7d' := by
    rw [List.head?_reverse]
    exact getLast?_append_right _ _ _ hJ1
  obtain ⟨t, hrevEq⟩ : ∃ t, (P2 ++ J).reverse = '\x7d' :: t := by
    cases hR : (P2 ++ J).reverse with
    | nil => rw [hR] at hrevhead; simp at hrevhead
    | cons a s =>
        rw [hR] at hrevhead
        have : a = '\x7d' := by simpa using hrevhead
        exact ⟨s, by rw [this]⟩
  have hdt : dropFenceTail (P2 ++ J) = P2 ++ J := by
    unfold dropFenceTail
    rw [if_neg ?_, if_neg ?_]
    · intro h
      rw [hrevEq] at h
      simp [List.take_succ_cons] at h
    · intro h
      rw [hrevEq] at h
      simp [List.take_succ_cons] at h
  have hps : pyStrip (P2 ++ J) = P2 ++ J := by
    unfold pyStrip lstrip
    rw [dropWhile_append_of_suffix_head wsC P2 J '\x7b' hJ0 rfl, hP2s]
    exact rstrip_of_last _ '\x7d' (getLast?_append_right _ _ _ hJ1) rfl
  exact ⟨P2, by rw [hdh, hdt, hps], hP2, hP2s⟩

/-- C3 proof core, on character lists. -/
theorem ppjList_prose (P J W : List Char) (v : Json)
    (hP : ∀ c ∈ P, ¬(c = '\x7b'))
    (hJ0 : J.head? = some '\x7b')
    (hJ1 : J.getLast? = some '\x7d')
    (hload : json_loads_list J = some v)
    (hW : ∀ c ∈ W, wsC c = true) :
    ppjList (P ++ J ++ W) = some v := by
  have hJne : J ≠ [] := by
    intro h
    rw [h] at hJ0
    simp at hJ0
  have hJlen2 : 2 ≤ J.length := by
    by_contra h
    push_neg at h
    have h1 : J.length = 1 := by
      have := List.length_pos.mpr hJne
      omega
    obtain ⟨a, rfl⟩ := List.length_eq_one.mp h1
    have ha0 : a = '\x7b' := by simpa using hJ0
    have ha1 : a = '\x7d' := by simpa using hJ1
    rw [ha0] at ha1
    exact absurd ha1 (by decide)
  have hJWhead : (J ++ W).head? = some '\x7b' := head?_append_left _ _ _ hJ0
  have hst : pyStrip (P ++ J ++ W) = List.dropWhile wsC P ++ J := by
    unfold pyStrip lstrip
    rw [List.append_assoc]
    rw [dropWhile_append_of_suffix_head wsC P (J ++ W) '\x7b' hJWhead rfl]
    rw [← List.append_assoc]
    rw [rstrip_append_allws _ _ hW]
    exact rstrip_of_last _ '\x7d' (getLast?_append_right _ _ _ hJ1) rfl
  have hP1 : ∀ c ∈ List.dropWhile wsC P, ¬(c = '\x7b') := by
    intro c hc
    exact hP c ((List.dropWhile_sublist wsC).subset hc)
  have hs0ne : ¬(List.dropWhile wsC P ++ J = []) := by
    intro h
    exact hJne (List.append_eq_nil.mp h).2
  obtain ⟨P2, hform, hP2, hP2s⟩ :=
    fence_strip_form (List.dropWhile wsC P) J hP1 (dropWhile_idem wsC P) hJ0 hJ1
  simp only [ppjList]
  rw [hst, if_neg hs0ne, hform]
  cases P2 with
  | nil =>
      rw [List.nil_append, if_pos hJ0]
      exact hload
  | cons a t =>
      have ha : ¬(a = '\x7b') := hP2 a (by simp)
      have hcond : ¬(((a :: t) ++ J).head? = some '\x7b') := by
        intro h
        rw [show ((a :: t) ++ J).head? = some a from rfl] at h
        exact ha (by simpa using h)
      rw [if_neg hcond]
      have hrJ : rstrip J = J := rstrip_of_last _ '\x7d' hJ1 rfl
      have hbc : braceCand ((a :: t) ++ J) = some J := by
        unfold braceCand
        have hAll : List.dropWhile (fun c => !(c == '\x7b')) (a :: t) = [] := by
          apply List.dropWhile_eq_nil_iff.mpr
          intro x hx
          have := hP2 x hx
          simp [this]
        have hdrop : List.dropWhile (fun c => !(c == '\x7b')) ((a :: t) ++ J) = J := by
          rw [List.dropWhile_append, if_pos (by simp [hAll])]
          exact dropWhile_eq_self_of_head _ J '\x7b' hJ0 (by simp)
        rw [hdrop]
        obtain ⟨c0, J', hJeq⟩ : ∃ c0 J', J = c0 :: J' := by
          cases J with
          | nil => exact absurd rfl hJne
          | cons x xs => exact ⟨x, xs, rfl⟩
        rw [hJeq]
        rw [show (match c0 :: J' with
            | [] => (none : Option (List Char))
            | c :: t =>
                if 2 ≤ (rstrip (c :: t)).length ∧ (rstrip (c :: t)).getLast? = some '\x7d'
                then some (c :: t) else none)
          = if 2 ≤ (rstrip (c0 :: J')).length ∧ (rstrip (c0 :: J')).getLast? = some '\x7d'
            then some (c0 :: J') else none from rfl]
        rw [← hJeq, hrJ, if_pos ⟨hJlen2, hJ1⟩]
      rw [hbc]
      exact hload

/-- C3 (counterexample): prose containing a `\x7b` defeats the greedy
trailing-object recovery — the candidate starts at the first brace of the
prose and fails to parse, so `parse_possible_json` raises even though the
input ends in a well-formed object. -/
theorem parse_possible_json_prose_brace_cex :
    parse_possible_json "x \x7b y \x7b\"a\": 1\x7d" = none
    ∧ json_loads "\x7b\"a\": 1\x7d" = some (Json.obj [("a", Json.num 1)]) :=
  ⟨rfl, rfl⟩

/-- C3 (amended): for leading prose that contains no `\x7b`, followed by a
well-formed JSON object whose closing `\x7d` ends the string up to trailing
whitespace, `parse_possible_json` extracts exactly the object span and
returns its parse. -/
theorem parse_possible_json_prose_amended (prose j trail : String) (v : Json)
    (hp : ∀ c ∈ prose.data, ¬(c = '\x7b'))
    (hj0 : j.data.head? = some '\x7b')
    (hj1 : j.data.getLast? = some '\x7d')
    (hload : json_loads j = some v)
    (htr : ∀ c ∈ trail.data, wsC c = true) :
    parse_possible_json (prose ++ j ++ trail) = some v := by
  unfold parse_possible_json
  rw [data_append, data_append]
  exact ppjList_prose prose.data j.data trail.data v hp hj0 hj1 hload htr

/-- Witness for C3's amended theorem at a concrete prose-wrapped reply. -/
theorem parse_possible_json_prose_amended_witness :
    parse_possible_json ("Here is the scored result: " ++ "\x7b\"a\": 1\x7d" ++ "\n")
      = some (Json.obj [("a", Json.num 1)]) :=
  parse_possible_json_prose_amended "Here is the scored result: " "\x7b\"a\": 1\x7d" "\n"
    (Json.obj [("a", Json.num 1)]) (by decide) (by decide) (by decide) rfl (by decide)

/-! ## Row projector (`to_rows`, lines 109-114) -/

/-- The flattening loop of `to_rows`: for each `(category, entry)` pair in the
parsed order, set `row[category] = entry["score"]` and
`row[category + " — why"] = entry["justification"]`; `none` models the
`KeyError`/`TypeError` Python would raise. -/
def to_rowsAux : List (String × Json) → Dict → Option Dict
  | [], row => some row
  | (k, v) :: rest, row =>
    match v with
    | .obj e =>
      match jsonGet e "score", jsonGet e "justification" with
      | some sv, some jv =>
          to_rowsAux rest (dictInsert (dictInsert row k sv) (k ++ " — why") jv)
      | _, _ => none
    | _ => none

/-- `to_rows(obj)`: start the row with the verbatim `district` value, flatten
the `scores` mapping in its own key order, and return a one-element list. -/
def to_rows (j : Json) : Option (List Dict) :=
  match j with
  | .obj o =>
    match jsonGet o "district", jsonGet o "scores" with
    | some d, some (.obj sc) => (to_rowsAux sc [("district", d)]).map (fun r => [r])
    | _, _ => none
  | _ => none

/-- The seven fixed rubric categories, as enumerated in the prompt schema
(lines 43-49 and 65-71 of the script). -/
def categories : List String :=
  ["Facility Inventory & Condition Assessment",
   "Enrollment & Capacity Planning",
   "Educational Alignment",
   "Outdoor Spaces & Greening",
   "Climate Risk & Mitigation",
   "Energy Efficiency & Resilience",
   "Financial Plan & Capital Strategy"]

/-- The two column names each category contributes, in order. -/
def keyColumns : List String → List String
  | [] => []
  | k :: rest => k :: (k ++ " — why") :: keyColumns rest

/-- The column set the specification asserts for every row: `district` plus
two columns per fixed category. -/
def canonicalColumns : List String := "district" :: keyColumns categories

/-- Whether a scores entry has the two fields `to_rows` reads. -/
def entryOk (v : Json) : Bool :=
  match v with
  | .obj e => (jsonGet e "score").isSome && (jsonGet e "justification").isSome
  | _ => false

/-- The two columns a scores entry contributes. -/
def entryCols (kv : String × Json) : List (String × Json) :=
  match kv.2 with
  | .obj e =>
      match jsonGet e "score", jsonGet e "justification" with
      | some sv, some jv => [(kv.1, sv), (kv.1 ++ " — why", jv)]
      | _, _ => []
  | _ => []

/-- All columns contributed by a scores mapping, in its order. -/
def colsOf : List (String × Json) → Dict
  | [] => []
  | kv :: rest => entryCols kv ++ colsOf rest

theorem dictInsert_fresh (d : Dict) (k : String) (v : Json)
    (h : ∀ kv ∈ d, ¬(kv.1 = k)) : dictInsert d k v = d ++ [(k, v)] := by
  unfold dictInsert
  rw [if_neg ?_]
  intro hany
  obtain ⟨kv, hkv, he⟩ := List.any_eq_true.mp hany
  exact h kv hkv (by simpa using he)

theorem to_rowsAux_cons_ok (k : String) (e : Dict) (sv jv : Json)
    (rest : List (String × Json)) (row : Dict)
    (hsv : jsonGet e "score" = some sv) (hjv : jsonGet e "justification" = some jv) :
    to_rowsAux ((k, .obj e) :: rest) row
      = to_rowsAux rest (dictInsert (dictInsert row k sv) (k ++ " — why") jv) := by
  simp [to_rowsAux, hsv, hjv]

theorem entryCols_ok (k : String) (e : Dict) (sv jv : Json)
    (hsv : jsonGet e "score" = some sv) (hjv : jsonGet e "justification" = some jv) :
    entryCols (k, .obj e) = [(k, sv), (k ++ " — why", jv)] := by
  simp [entryCols, hsv, hjv]

/-- The flattening loop appends two fresh columns for each entry when no
column name collides with an earlier one. -/
theorem to_rowsAux_eq :
    ∀ (sc : List (String × Json)) (row : Dict),
      (∀ kv ∈ sc, entryOk kv.2 = true) →
      (row.map Prod.fst ++ keyColumns (sc.map Prod.fst)).Nodup →
      to_rowsAux sc row = some (row ++ colsOf sc) := by
  intro sc
  induction sc with
  | nil =>
      intro row _ _
      simp [to_rowsAux, colsOf]
  | cons kv rest ih =>
      intro row hok hnd
      obtain ⟨k, v⟩ := kv
      have hv := hok (k, v) (by simp)
      cases v with
      | obj e =>
          simp only [entryOk, Bool.and_eq_true, Option.isSome_iff_exists] at hv
          obtain ⟨⟨sv, hsv⟩, ⟨jv, hjv⟩⟩ := hv
          simp only [List.map_cons, keyColumns] at hnd
          rw [List.nodup_append] at hnd
          obtain ⟨hA, hB, hdisj⟩ := hnd
          have hkkw : ¬(k = k ++ " — why") := by
            rcases List.nodup_cons.mp hB with ⟨hknotin, _⟩
            intro he
            exact hknotin (by rw [← he]; simp)
          have h1 : ∀ p ∈ row, ¬(p.1 = k) := by
            intro p hp he
            exact hdisj (List.mem_map.mpr ⟨p, hp, rfl⟩) (he ▸ List.mem_cons_self _ _)
          have h2 : ∀ p ∈ row ++ [(k, sv)], ¬(p.1 = k ++ " — why") := by
            intro p hp he
            rcases List.mem_append.mp hp with hp | hp
            · refine hdisj (List.mem_map.mpr ⟨p, hp, rfl⟩) ?_
              rw [he]
              simp
            · have : p = (k, sv) := by simpa using hp
              rw [this] at he
              exact hkkw he
          rw [to_rowsAux_cons_ok k e sv jv rest row hsv hjv,
            dictInsert_fresh row k sv h1,
            dictInsert_fresh (row ++ [(k, sv)]) (k ++ " — why") jv h2,
            ih ((row ++ [(k, sv)]) ++ [(k ++ " — why", jv)])
              (fun p hp => hok p (by simp [hp])) ?_]
          · rw [show colsOf ((k, Json.obj e) :: rest) = entryCols (k, .obj e) ++ colsOf rest
                from rfl,
              entryCols_ok k e sv jv hsv hjv]
            simp
          · simp only [List.map_append, List.map_cons, List.map_nil]
            rw [List.append_assoc, List.append_assoc]
            rw [show [k] ++ ([k ++ " — why"] ++ keyColumns (rest.map Prod.fst))
                = k :: (k ++ " — why") :: keyColumns (rest.map Prod.fst) from rfl]
            rw [List.nodup_append]
            exact ⟨hA, hB, hdisj⟩
      | null => simp [entryOk] at hv
      | bool b => simp [entryOk] at hv
      | num n => simp [entryOk] at hv
      | flt f => simp [entryOk] at hv
      | str s => simp [entryOk] at hv
      | arr a => simp [entryOk] at hv

/-- Full characterization of `to_rows` on well-formed, collision-free input
(shared by the row-projection and column-schema results). -/
theorem to_rows_eq (o : Dict) (sc : List (String × Json)) (dv : Json)
    (hd : jsonGet o "district" = some dv)
    (hs : jsonGet o "scores" = some (.obj sc))
    (hent : ∀ kv ∈ sc, entryOk kv.2 = true)
    (hnd : ("district" :: keyColumns (sc.map Prod.fst)).Nodup) :
    to_rows (.obj o) = some [("district", dv) :: colsOf sc] := by
  simp only [to_rows, hd, hs]
  rw [to_rowsAux_eq sc [("district", dv)] hent hnd]
  rfl

theorem colsOf_map_fst :
    ∀ (sc : List (String × Json)), (∀ kv ∈ sc, entryOk kv.2 = true) →
      (colsOf sc).map Prod.fst = keyColumns (sc.map Prod.fst) := by
  intro sc
  induction sc with
  | nil => intro _; rfl
  | cons kv rest ih =>
      intro hok
      obtain ⟨k, v⟩ := kv
      have hv := hok (k, v) (by simp)
      cases v with
      | obj e =>
          simp only [entryOk, Bool.and_eq_true, Option.isSome_iff_exists] at hv
          obtain ⟨⟨sv, hsv⟩, ⟨jv, hjv⟩⟩ := hv
          rw [show colsOf ((k, Json.obj e) :: rest) = entryCols (k, .obj e) ++ colsOf rest
              from rfl,
            entryCols_ok k e sv jv hsv hjv]
          simp only [List.map_append, List.map_cons, List.map_nil, keyColumns]
          rw [ih (fun p hp => hok p (by simp [hp]))]
          rfl
      | null => simp [entryOk] at hv
      | bool b => simp [entryOk] at hv
      | num n => simp [entryOk] at hv
      | flt f => simp [entryOk] at hv
      | str s => simp [entryOk] at hv
      | arr a => simp [entryOk] at hv

/-- Object whose scores mapping reuses the key `district`. -/
def collisionObj : Json :=
  .obj [("district", .str "d"),
        ("scores", .obj [("district", .obj [("score", .num 1), ("justification", .str "j")])])]

/-- C7 (counterexample): a parsed object whose `scores` mapping contains the
category name `district` (every entry still has `score` and
`justification`) makes the row's `district` column hold the score, not the
verbatim district string — Python dict assignment overwrites it. -/
theorem to_rows_district_collision_cex :
    to_rows collisionObj
      = some [[("district", Json.num 1), ("district — why", Json.str "j")]]
    ∧ Json.num 1 ≠ Json.str "d" :=
  ⟨rfl, fun h => Json.noConfusion h⟩

/-- C7 (amended): for every parsed object with a `district` field and a
`scores` mapping whose entries all carry `score` and `justification`, and
whose category names produce no column-name collision (no category equals
`district`, none equals another category suffixed with `" — why"`),
`to_rows` returns exactly one row: the verbatim district followed by the
two columns of each category in the mapping's own order. -/
theorem to_rows_projection_amended (o : Dict) (sc : List (String × Json)) (dv : Json)
    (hd : jsonGet o "district" = some dv)
    (hs : jsonGet o "scores" = some (.obj sc))
    (hent : ∀ kv ∈ sc, entryOk kv.2 = true)
    (hnd : ("district" :: keyColumns (sc.map Prod.fst)).Nodup) :
    to_rows (.obj o) = some [("district", dv) :: colsOf sc] :=
  to_rows_eq o sc dv hd hs hent hnd

/-- Witness for C7's amended theorem: the specification's Oakville example. -/
theorem to_rows_projection_amended_witness :
    to_rows (Json.obj [("district", Json.str "Oakville"),
        ("scores", Json.obj [("Energy Efficiency & Resilience",
          Json.obj [("score", Json.num 3), ("justification", Json.str "ok")])])])
      = some [[("district", Json.str "Oakville"),
          ("Energy Efficiency & Resilience", Json.num 3),
          ("Energy Efficiency & Resilience — why", Json.str "ok")]] :=
  to_rows_projection_amended
    [("district", Json.str "Oakville"),
     ("scores", Json.obj [("Energy Efficiency & Resilience",
       Json.obj [("score", Json.num 3), ("justification", Json.str "ok")])])]
    [("Energy Efficiency & Resilience",
      Json.obj [("score", Json.num 3), ("justification", Json.str "ok")])]
    (Json.str "Oakville") rfl rfl (by decide) (by decide)

/-- C2 (amended): the column list of the single row `to_rows` produces is
`district` followed by two columns per key of the parsed reply's `scores`
mapping, in that mapping's order — the schema is data-driven, fixed only
when every reply uses the same keys (e.g. the seven canonical categories). -/
theorem to_rows_columns_amended (o : Dict) (sc : List (String × Json)) (dv : Json)
    (hd : jsonGet o "district" = some dv)
    (hs : jsonGet o "scores" = some (.obj sc))
    (hent : ∀ kv ∈ sc, entryOk kv.2 = true)
    (hnd : ("district" :: keyColumns (sc.map Prod.fst)).Nodup) :
    ∃ r, to_rows (.obj o) = some [r]
      ∧ r.map Prod.fst = "district" :: keyColumns (sc.map Prod.fst) := by
  refine ⟨("district", dv) :: colsOf sc, to_rows_eq o sc dv hd hs hent hnd, ?_⟩
  simp only [List.map_cons]
  rw [colsOf_map_fst sc hent]

/-- Witness for C2's amended theorem on a reply with a non-canonical key. -/
theorem to_rows_columns_amended_witness :
    ∃ r, to_rows (Json.obj [("district", Json.str "d"),
        ("scores", Json.obj [("Energy",
          Json.obj [("score", Json.num 2), ("justification", Json.str "ok")])])])
      = some [r]
      ∧ r.map Prod.fst = "district" :: keyColumns ["Energy"] :=
  to_rows_columns_amended
    [("district", Json.str "d"),
     ("scores", Json.obj [("Energy",
       Json.obj [("score", Json.num 2), ("justification", Json.str "ok")])])]
    [("Energy", Json.obj [("score", Json.num 2), ("justification", Json.str "ok")])]
    (Json.str "d") rfl rfl (by decide) (by decide)

/-! ## District-name resolution (`main`, lines 138-144) -/

/-- The final path component (model of `pathlib` name splitting on `/`). -/
def lastComponent (l : List Char) : List Char :=
  (l.reverse.takeWhile (fun c => !(c == '/'))).reverse

/-- `pathlib.PurePath.stem`: drop the last suffix when the final dot is
neither the first character nor the last. -/
def stemOf (name : List Char) : List Char :=
  match name.reverse.dropWhile (fun c => !(c == '.')) with
  | [] => name
  | _ :: baseRev =>
      if baseRev = [] ∨ name.reverse.takeWhile (fun c => !(c == '.')) = [] then name
      else baseRev.reverse

/-- `Path(pdf).stem`. -/
def pathStem (p : String) : String := String.mk (stemOf (lastComponent p.data))

/-- `s.replace("_", " ")` (single-character replacement). -/
def replaceUnderscores (s : String) : String :=
  String.mk (s.data.map (fun c => if c = '_' then ' ' else c))

/-- One pass of `str.title()`: a letter is uppercased after a non-letter and
lowercased after a letter (ASCII model of Python's cased-character rule). -/
def titleAux : Bool → List Char → List Char
  | _, [] => []
  | prevAlpha, c :: r =>
      (if c.isAlpha then (if prevAlpha then c.toLower else c.toUpper) else c)
        :: titleAux c.isAlpha r

/-- `s.title()`. -/
def pyTitle (s : String) : String := String.mk (titleAux false s.data)

/-- `Path(pdf).stem.replace("_", " ").title()`. -/
def deriveDistrict (pdf : String) : String := pyTitle (replaceUnderscores (pathStem pdf))

/-- District-name pick of the batch loop:
`names[i] if names and i < len(names) else derived`. -/
def resolveDistrict (names : Option (List String)) (i : Nat) (pdf : String) : String :=
  match names with
  | some ns => if h : i < ns.length then ns.get ⟨i, h⟩ else deriveDistrict pdf
  | none => deriveDistrict pdf

/-- C8: the resolved district name is the i-th supplied name when a name
list is supplied and in range, and otherwise is derived from the file name
by dropping the extension, replacing underscores with spaces and
title-casing; in particular `west_valley_plan.pdf` resolves to
`West Valley Plan`. -/
theorem district_resolution :
    (∀ (ns : List String) (i : Nat) (pdf : String) (h : i < ns.length),
        resolveDistrict (some ns) i pdf = ns.get ⟨i, h⟩)
    ∧ (∀ (ns : List String) (i : Nat) (pdf : String), ns.length ≤ i →
        resolveDistrict (some ns) i pdf = pyTitle (replaceUnderscores (pathStem pdf)))
    ∧ (∀ (i : Nat) (pdf : String),
        resolveDistrict none i pdf = pyTitle (replaceUnderscores (pathStem pdf)))
    ∧ resolveDistrict none 0 "west_valley_plan.pdf" = "West Valley Plan" := by
  refine ⟨?_, ?_, ?_, ?_⟩
  · intro ns i pdf h
    simp [resolveDistrict, h]
  · intro ns i pdf h
    simp [resolveDistrict, deriveDistrict, Nat.not_lt.mpr h]
  · intro i pdf
    rfl
  · rfl

/-- Witness for C8 at concrete inputs (both resolution branches). -/
theorem district_resolution_witness :
    resolveDistrict (some ["Alpha"]) 0 "b.pdf" = ["Alpha"].get ⟨0, by decide⟩
    ∧ resolveDistrict (some ["Alpha"]) 1 "b.pdf"
        = pyTitle (replaceUnderscores (pathStem "b.pdf")) :=
  ⟨district_resolution.1 ["Alpha"] 0 "b.pdf" (by decide),
   district_resolution.2.1 ["Alpha"] 1 "b.pdf" (by decide)⟩

/-! ## Page cap (`read_pdf_text`, lines 13-22) -/

/-- Python list slicing `l[:n]` (negative stops drop from the end). -/
def pySliceTake (l : List String) (n : Int) : List String :=
  if 0 ≤ n then l.take n.toNat else l.take (l.length - (-n).toNat)

/-- The page prefix selected by
`reader.pages[: (max_pages or len(reader.pages))]`: `None` and `0` are both
falsy and select every page.  A page is modelled by its extracted text
(per-page extraction failures are already mapped to `""` by the `except`
arm); the pdf reading itself is an external capability. -/
def pagesToRead (pages : List String) (max_pages : Option Int) : List String :=
  match max_pages with
  | none => pySliceTake pages pages.length
  | some m => if m = 0 then pySliceTake pages pages.length else pySliceTake pages m

/-- `read_pdf_text`: join the selected pages' text with blank lines. -/
def read_pdf_text (pages : List String) (max_pages : Option Int) : String :=
  String.intercalate "\n\n" (pagesToRead pages max_pages)

/-- How many pages the call processes. -/
def pagesRead (pages : List String) (max_pages : Option Int) : Nat :=
  (pagesToRead pages max_pages).length

/-- C9 (counterexample): `--max-pages 0` is falsy, so the code reads every
page rather than at most zero. -/
theorem max_pages_zero_cex :
    pagesRead ["page one"] (some 0) = 1 ∧ ¬((1 : Int) ≤ 0) :=
  ⟨rfl, by decide⟩

/-- C9 (amended): for every positive supplied value n, at most n pages are
read; a value of 0 (like None) is falsy and selects all pages, and a
negative value drops pages from the end instead of capping the count. -/
theorem max_pages_cap_amended (pages : List String) (n : Int) (hn : 0 < n) :
    (pagesRead pages (some n) : Int) ≤ n := by
  simp only [pagesRead, pagesToRead]
  rw [if_neg (by omega : ¬ n = 0)]
  unfold pySliceTake
  rw [if_pos (le_of_lt hn)]
  have h1 : (pages.take n.toNat).length ≤ n.toNat := by simp [List.length_take]
  have h2 : (n.toNat : Int) = n := Int.toNat_of_nonneg (le_of_lt hn)
  omega

/-- Witness for C9's amended cap at a concrete document. -/
theorem max_pages_cap_amended_witness :
    (0 : Int) < 1 ∧ (pagesRead ["a", "b"] (some 1) : Int) ≤ 1 :=
  ⟨by decide, max_pages_cap_amended ["a", "b"] 1 (by decide)⟩

/-! ## Batch orchestrator (`main`, lines 117-186) -/

/-- In-memory model of the output directory: an association list from path
to content, newest write first. -/
abbrev FS := List (String × String)

def FS.write (fs : FS) (p c : String) : FS := (p, c) :: fs

def FS.lookup (fs : FS) (p : String) : Option String :=
  (fs.find? (fun kv => kv.1 == p)).map Prod.snd

theorem FS.lookup_write_self (fs : FS) (p c : String) :
    FS.lookup (FS.write fs p c) p = some c := by
  simp [FS.lookup, FS.write]

theorem FS.lookup_write_ne (fs : FS) (p q c : String) (h : ¬(q = p)) :
    FS.lookup (FS.write fs p c) q = FS.lookup fs q := by
  unfold FS.lookup FS.write
  rw [List.find?_cons_of_neg]
  simp
  intro he
  exact h he.symm

/-- Serialization for the per-district and aggregate JSON files.  The
textual details of Python `json.dumps(indent=2, ensure_ascii=False)` —
indentation, control-character escaping, float formatting — are abstracted
to a definite compact rendering; no claim depends on this text, only on
which file receives the dump of which value. -/
def escChar (c : Char) : List Char :=
  if c = '"' ∨ c = '\\' then ['\\', c] else [c]

def dumpStr (s : String) : String :=
  String.mk ('"' :: s.data.foldr (fun c acc => escChar c ++ acc) ['"'])

def joinComma : List String → String
  | [] => ""
  | [x] => x
  | x :: xs => x ++ ", " ++ joinComma xs

mutual

def dumpVal : Json → String
  | .null => "null"
  | .bool true => "true"
  | .bool false => "false"
  | .num n => toString n
  | .flt s => s
  | .str s => dumpStr s
  | .arr xs => "[" ++ dumpElemsTxt xs ++ "]"
  | .obj kvs => "\x7b" ++ dumpMembersTxt kvs ++ "\x7d"

def dumpElemsTxt : List Json → String
  | [] => ""
  | [x] => dumpVal x
  | x :: xs => dumpVal x ++ ", " ++ dumpElemsTxt xs

def dumpMembersTxt : List (String × Json) → String
  | [] => ""
  | [(k, v)] => dumpStr k ++ ": " ++ dumpVal v
  | (k, v) :: xs => dumpStr k ++ ": " ++ dumpVal v ++ ", " ++ dumpMembersTxt xs

end

def json_dumps (j : Json) : String := dumpVal j

/-- Stand-in for `pandas.DataFrame(rows).to_csv(...)`: a definite rendering
of the rows (pandas' exact header union and quoting rules are an external
capability; no claim depends on this text). -/
def csv_dump (rows : List Dict) : String :=
  joinComma (match rows with | [] => [] | r :: _ => r.map Prod.fst)
    ++ "\n" ++ String.intercalate "\n"
      (rows.map (fun r => joinComma (r.map (fun kv => json_dumps kv.2))))

/-- One input document: its `--pdfs` path together with the raw reply the
external model call returns for it (the call itself is an opaque oracle). -/
structure Doc where
  pdf : String
  reply : String

def rawPath (outDir district : String) : String := outDir ++ "/" ++ district ++ "_raw.txt"

def jsonPath (outDir district : String) : String := outDir ++ "/" ++ district ++ ".json"

/-- What line 163 writes: the reply, or the placeholder for an empty reply. -/
def rawContent (reply : String) : String := if reply = "" then "<EMPTY_RESPONSE>" else reply

inductive StepRes where
  | failed : FS → StepRes
  | ok : FS → List Dict → StepRes

def StepRes.fsOf : StepRes → FS
  | .failed fs => fs
  | .ok fs _ => fs

/-- One document's processing (lines 159-179): write the raw reply (or the
empty marker) first, then attempt the parse; on success write the
per-district JSON and project the rows; a parse or projection failure
aborts with exactly the files written so far on disk. -/
def processDoc (outDir district reply : String) (fs : FS) : StepRes :=
  let fs1 := FS.write fs (rawPath outDir district) (rawContent reply)
  match parse_possible_json reply with
  | none => .failed fs1
  | some obj =>
    let fs2 := FS.write fs1 (jsonPath outDir district) (json_dumps obj)
    match to_rows obj with
    | none => .failed fs2
    | some rs => .ok fs2 rs

inductive RunOutcome where
  | aborted : FS → Nat → RunOutcome
  | completed : FS → List Dict → RunOutcome

def RunOutcome.fsOf : RunOutcome → FS
  | .aborted fs _ => fs
  | .completed fs _ => fs

def RunOutcome.rowsOf : RunOutcome → Option (List Dict)
  | .completed _ rows => some rows
  | .aborted _ _ => none

def RunOutcome.abortIdx : RunOutcome → Option Nat
  | .aborted _ i => some i
  | .completed _ _ => none

/-- The batch loop from document index `i` on; after a clean pass over the
whole list the aggregates `scores.csv` then `scores.json` are written. -/
def runAux (outDir : String) (names : Option (List String)) :
    Nat → List Doc → FS → List Dict → RunOutcome
  | _, [], fs, rows =>
      .completed
        (FS.write (FS.write fs (outDir ++ "/scores.csv") (csv_dump rows))
          (outDir ++ "/scores.json") (json_dumps (.arr (rows.map Json.obj))))
        rows
  | i, d :: rest, fs, rows =>
      match processDoc outDir (resolveDistrict names i d.pdf) d.reply fs with
      | .failed fs1 => .aborted fs1 i
      | .ok fs1 rs => runAux outDir names (i + 1) rest fs1 (rows ++ rs)

/-- A full batch run: empty output directory, empty row accumulator. -/
def runBatch (outDir : String) (names : Option (List String)) (docs : List Doc) : RunOutcome :=
  runAux outDir names 0 docs [] []

/-! ### Output-path facts -/

theorem str_data_inj (a b : String) (h : a.data = b.data) : a = b := by
  cases a; cases b
  exact congrArg String.mk h

theorem ne_of_lastChar (a b : String) (ca cb : Char)
    (ha : a.data.getLast? = some ca) (hb : b.data.getLast? = some cb)
    (h : ca ≠ cb) : ¬(a = b) := by
  intro he
  rw [he, hb] at ha
  exact h (Option.some.inj ha).symm

theorem rawPath_last (o d : String) : (rawPath o d).data.getLast? = some 't' := by
  unfold rawPath
  rw [data_append]
  exact getLast?_append_right _ _ _ rfl

theorem jsonPath_last (o d : String) : (jsonPath o d).data.getLast? = some 'n' := by
  unfold jsonPath
  rw [data_append]
  exact getLast?_append_right _ _ _ rfl

theorem scoresCsv_last (o : String) : (o ++ "/scores.csv").data.getLast? = some 'v' := by
  rw [data_append]
  exact getLast?_append_right _ _ _ rfl

theorem scoresJson_last (o : String) : (o ++ "/scores.json").data.getLast? = some 'n' := by
  rw [data_append]
  exact getLast?_append_right _ _ _ rfl

theorem raw_ne_json (o d o' d' : String) : ¬(rawPath o d = jsonPath o' d') :=
  ne_of_lastChar _ _ 't' 'n' (rawPath_last o d) (jsonPath_last o' d') (by decide)

theorem raw_ne_csv (o d o' : String) : ¬(rawPath o d = o' ++ "/scores.csv") :=
  ne_of_lastChar _ _ 't' 'v' (rawPath_last o d) (scoresCsv_last o') (by decide)

theorem raw_ne_scoresJson (o d o' : String) : ¬(rawPath o d = o' ++ "/scores.json") :=
  ne_of_lastChar _ _ 't' 'n' (rawPath_last o d) (scoresJson_last o') (by decide)

theorem json_ne_csv (o d o' : String) : ¬(jsonPath o d = o' ++ "/scores.csv") :=
  ne_of_lastChar _ _ 'n' 'v' (jsonPath_last o d) (scoresCsv_last o') (by decide)

theorem append_right_cancel_str (x y t : String) (h : x ++ t = y ++ t) : x = y := by
  have hd := congrArg String.data h
  rw [data_append, data_append] at hd
  exact str_data_inj _ _ (List.append_cancel_right hd)

theorem append_left_cancel_str (x a b : String) (h : x ++ a = x ++ b) : a = b := by
  have hd := congrArg String.data h
  rw [data_append, data_append] at hd
  exact str_data_inj _ _ (List.append_cancel_left hd)

theorem rawPath_inj (o d d' : String) (h : rawPath o d = rawPath o d') : d = d' := by
  unfold rawPath at h
  exact append_left_cancel_str _ _ _ (append_right_cancel_str _ _ _ h)

theorem jsonPath_inj (o d d' : String) (h : jsonPath o d = jsonPath o d') : d = d' := by
  unfold jsonPath at h
  exact append_left_cancel_str _ _ _ (append_right_cancel_str _ _ _ h)

theorem scoresJson_as_jsonPath (o : String) : o ++ "/scores.json" = jsonPath o "scores" := by
  apply str_data_inj
  unfold jsonPath
  simp only [data_append, List.append_assoc]
  rfl

theorem json_ne_scoresJson (o d : String) (hd : ¬(d = "scores")) :
    ¬(jsonPath o d = o ++ "/scores.json") := by
  intro h
  rw [scoresJson_as_jsonPath] at h
  exact hd (jsonPath_inj o d "scores" h)

theorem rawPath_ne_of_district (o d d' : String) (h : ¬(d = d')) :
    ¬(rawPath o d = rawPath o d') := fun he => h (rawPath_inj o d d' he)

theorem jsonPath_ne_of_district (o d d' : String) (h : ¬(d = d')) :
    ¬(jsonPath o d = jsonPath o d') := fun he => h (jsonPath_inj o d d' he)

/-! ### C5: the raw reply is on disk whatever the parse outcome -/

/-- Both branches of a document's processing leave the raw reply (or the
empty-response marker) at `<out>/<district>_raw.txt`: the write precedes
the parse attempt. -/
theorem processDoc_raw (outDir district reply : String) (fs : FS) :
    FS.lookup (processDoc outDir district reply fs).fsOf (rawPath outDir district)
      = some (rawContent reply) := by
  simp only [processDoc]
  cases hp : parse_possible_json reply with
  | none =>
      simp only [StepRes.fsOf]
      exact FS.lookup_write_self fs _ _
  | some obj =>
      cases htr : to_rows obj with
      | none =>
          simp only [htr, StepRes.fsOf]
          rw [FS.lookup_write_ne _ _ _ _ (raw_ne_json outDir district outDir district)]
          exact FS.lookup_write_self fs _ _
      | some rs =>
          simp only [htr, StepRes.fsOf]
          rw [FS.lookup_write_ne _ _ _ _ (raw_ne_json outDir district outDir district)]
          exact FS.lookup_write_self fs _ _

/-- An aborted run's final filesystem still holds the aborting document's
raw reply. -/
theorem runAux_aborted_raw (outDir : String) (names : Option (List String)) :
    ∀ (docs : List Doc) (i0 : Nat) (fs0 : FS) (rows : List Dict) (fs : FS) (i : Nat),
      runAux outDir names i0 docs fs0 rows = RunOutcome.aborted fs i →
      i0 ≤ i ∧ ∃ d, docs[i - i0]? = some d
        ∧ FS.lookup fs (rawPath outDir (resolveDistrict names i d.pdf))
            = some (rawContent d.reply) := by
  intro docs
  induction docs with
  | nil =>
      intro i0 fs0 rows fs i h
      simp [runAux] at h
  | cons d rest ih =>
      intro i0 fs0 rows fs i h
      simp only [runAux] at h
      cases hp : processDoc outDir (resolveDistrict names i0 d.pdf) d.reply fs0 with
      | failed fs1 =>
          rw [hp] at h
          injection h with h1 h2
          subst h1
          subst h2
          refine ⟨le_refl _, ⟨d, ?_, ?_⟩⟩
          · simp
          · have hthis := processDoc_raw outDir (resolveDistrict names i0 d.pdf) d.reply fs0
            rw [hp] at hthis
            exact hthis
      | ok fs1 rs =>
          rw [hp] at h
          obtain ⟨hle, d', hd', hlk⟩ := ih (i0 + 1) fs1 (rows ++ rs) fs i h
          refine ⟨by omega, ⟨d', ?_, hlk⟩⟩
          have hidx : i - i0 = (i - (i0 + 1)) + 1 := by omega
          rw [hidx]
          simpa using hd'

/-- C5: in every document's processing the raw reply (with the literal
`<EMPTY_RESPONSE>` placeholder for an empty reply) is written to
`<out>/<district>_raw.txt` before the parse is attempted, so it is present
in the resulting filesystem whether the parse succeeds or fails; in
particular an aborted batch still holds the failing document's raw file. -/
theorem raw_written_before_parse :
    (∀ (outDir district reply : String) (fs : FS),
        FS.lookup (processDoc outDir district reply fs).fsOf (rawPath outDir district)
          = some (rawContent reply))
    ∧ (∀ (outDir : String) (names : Option (List String)) (docs : List Doc)
        (fs : FS) (i : Nat),
        runBatch outDir names docs = RunOutcome.aborted fs i →
        ∃ d, docs[i]? = some d
          ∧ FS.lookup fs (rawPath outDir (resolveDistrict names i d.pdf))
              = some (rawContent d.reply)) := by
  refine ⟨processDoc_raw, ?_⟩
  intro outDir names docs fs i h
  obtain ⟨_, d, hd, hlk⟩ := runAux_aborted_raw outDir names docs 0 [] [] fs i h
  exact ⟨d, by simpa using hd, hlk⟩

/-- Witness for C5: an empty reply fails to parse, yet its placeholder raw
file is on disk. -/
theorem raw_written_before_parse_witness :
    FS.lookup (processDoc "out" "D" "" []).fsOf (rawPath "out" "D")
      = some (rawContent "")
    ∧ (∃ d, [Doc.mk "a.pdf" ""][0]? = some d
        ∧ FS.lookup [("out/A_raw.txt", "<EMPTY_RESPONSE>")]
            (rawPath "out" (resolveDistrict none 0 d.pdf)) = some (rawContent d.reply)) :=
  ⟨raw_written_before_parse.1 "out" "D" "" [],
   raw_written_before_parse.2 "out" none [Doc.mk "a.pdf" ""]
     [("out/A_raw.txt", "<EMPTY_RESPONSE>")] 0 rfl⟩

/-! ### C6: abort behaviour of the batch -/

/-- The parsed object of a document whose reply parses. -/
def parsedOf (d : Doc) : Json := (parse_possible_json d.reply).getD .null

/-- The two files a successfully processed document writes. -/
def docWrites (outDir district : String) (d : Doc) (fs : FS) : FS :=
  FS.write (FS.write fs (rawPath outDir district) (rawContent d.reply))
    (jsonPath outDir district) (json_dumps (parsedOf d))

/-- The filesystem after cleanly processing a list of documents starting at
index `i`. -/
def abortFold (outDir : String) (names : Option (List String)) :
    Nat → FS → List Doc → FS
  | _, fs, [] => fs
  | i, fs, d :: rest =>
      abortFold outDir names (i + 1)
        (docWrites outDir (resolveDistrict names i d.pdf) d fs) rest

/-- A document that parses and projects successfully. -/
def stepOk (d : Doc) : Prop :=
  ∃ o r, parse_possible_json d.reply = some o ∧ to_rows o = some r

/-- The resolved district names of a document list starting at index `i`. -/
def districtsFrom (names : Option (List String)) : Nat → List Doc → List String
  | _, [] => []
  | i, d :: rest => resolveDistrict names i d.pdf :: districtsFrom names (i + 1) rest

theorem districtsFrom_append (names : Option (List String)) :
    ∀ (A B : List Doc) (j : Nat),
      districtsFrom names j (A ++ B)
        = districtsFrom names j A ++ districtsFrom names (j + A.length) B := by
  intro A
  induction A with
  | nil => intro B j; simp [districtsFrom]
  | cons d A' ih =>
      intro B j
      show resolveDistrict names j d.pdf :: districtsFrom names (j + 1) (A' ++ B) = _
      rw [ih B (j + 1)]
      simp only [List.length_cons, districtsFrom, List.cons_append]
      rw [show j + 1 + A'.length = j + (A'.length + 1) from by omega]

theorem districtsFrom_getElem (names : Option (List String)) :
    ∀ (pre : List Doc) (j i : Nat) (d : Doc), pre[i]? = some d →
      (districtsFrom names j pre)[i]? = some (resolveDistrict names (j + i) d.pdf) := by
  intro pre
  induction pre with
  | nil => intro j i d h; simp at h
  | cons d0 pre' ih =>
      intro j i d h
      cases i with
      | zero =>
          have hd : d0 = d := by simpa using h
          subst hd
          simp [districtsFrom]
      | succ i' =>
          have h' : pre'[i']? = some d := by simpa using h
          simp only [districtsFrom, List.getElem?_cons_succ]
          rw [ih (j + 1) i' d h']
          rw [show j + 1 + i' = j + (i' + 1) from by omega]

/-- Characterization of a run that fails first at `bad`, after a clean
prefix `pre`. -/
theorem runAux_abort_eq (outDir : String) (names : Option (List String))
    (bad : Doc) (rest : List Doc)
    (hbad : parse_possible_json bad.reply = none) :
    ∀ (pre : List Doc) (i0 : Nat) (fs : FS) (rows : List Dict),
      (∀ d ∈ pre, stepOk d) →
      runAux outDir names i0 (pre ++ bad :: rest) fs rows
        = RunOutcome.aborted
            (FS.write (abortFold outDir names i0 fs pre)
              (rawPath outDir (resolveDistrict names (i0 + pre.length) bad.pdf))
              (rawContent bad.reply))
            (i0 + pre.length) := by
  intro pre
  induction pre with
  | nil =>
      intro i0 fs rows _
      simp only [List.nil_append, runAux]
      rw [show processDoc outDir (resolveDistrict names i0 bad.pdf) bad.reply fs
          = StepRes.failed (FS.write fs
              (rawPath outDir (resolveDistrict names i0 bad.pdf)) (rawContent bad.reply))
          from by simp [processDoc, hbad]]
      simp [abortFold]
  | cons d pre' ih =>
      intro i0 fs rows hok
      obtain ⟨o, r, hpo, hro⟩ := hok d (by simp)
      simp only [List.cons_append, runAux]
      rw [show processDoc outDir (resolveDistrict names i0 d.pdf) d.reply fs
          = StepRes.ok (docWrites outDir (resolveDistrict names i0 d.pdf) d fs) r
          from by simp [processDoc, hpo, hro, docWrites, parsedOf]]
      show runAux outDir names (i0 + 1) (pre' ++ bad :: rest)
          (docWrites outDir (resolveDistrict names i0 d.pdf) d fs) (rows ++ r) = _
      rw [ih (i0 + 1) _ (rows ++ r) (fun x hx => hok x (by simp [hx]))]
      simp only [abortFold, List.length_cons]
      rw [show i0 + 1 + pre'.length = i0 + (pre'.length + 1) from by omega]

/-- Paths written by neither raw nor json file of any processed document are
untouched by the clean-prefix fold. -/
theorem abortFold_lookup_notmem (outDir : String) (names : Option (List String)) :
    ∀ (pre : List Doc) (i0 : Nat) (fs : FS) (p : String),
      (∀ (i : Nat) (d : Doc), pre[i]? = some d →
        ¬(p = rawPath outDir (resolveDistrict names (i0 + i) d.pdf))
        ∧ ¬(p = jsonPath outDir (resolveDistrict names (i0 + i) d.pdf))) →
      FS.lookup (abortFold outDir names i0 fs pre) p = FS.lookup fs p := by
  intro pre
  induction pre with
  | nil => intro i0 fs p _; rfl
  | cons d pre' ih =>
      intro i0 fs p hp
      simp only [abortFold]
      rw [ih (i0 + 1) _ p ?_]
      · have h0 := hp 0 d (by simp)
        rw [Nat.add_zero] at h0
        unfold docWrites
        rw [FS.lookup_write_ne _ _ _ _ h0.2, FS.lookup_write_ne _ _ _ _ h0.1]
      · intro i d' hd'
        have := hp (i + 1) d' (by simpa using hd')
        rw [show i0 + (i + 1) = i0 + 1 + i from by omega] at this
        exact this

/-- After a clean fold, the `k`-th document's raw and json files hold that
document's data, provided the resolved district names are pairwise
distinct. -/
theorem abortFold_lookup_doc (outDir : String) (names : Option (List String)) :
    ∀ (pre : List Doc) (i0 : Nat) (fs : FS) (k : Nat) (d : Doc),
      pre[k]? = some d →
      (districtsFrom names i0 pre).Nodup →
      FS.lookup (abortFold outDir names i0 fs pre)
          (rawPath outDir (resolveDistrict names (i0 + k) d.pdf))
        = some (rawContent d.reply)
      ∧ FS.lookup (abortFold outDir names i0 fs pre)
          (jsonPath outDir (resolveDistrict names (i0 + k) d.pdf))
        = some (json_dumps (parsedOf d)) := by
  intro pre
  induction pre with
  | nil => intro i0 fs k d h _; simp at h
  | cons d0 pre' ih =>
      intro i0 fs k d hk hnd
      simp only [districtsFrom, List.nodup_cons] at hnd
      obtain ⟨hnotin, hnd'⟩ := hnd
      cases k with
      | zero =>
          have hd : d0 = d := by simpa using hk
          subst hd
          rw [Nat.add_zero]
          simp only [abortFold]
          have hDne : ∀ (i : Nat) (d' : Doc), pre'[i]? = some d' →
              ¬(resolveDistrict names i0 d0.pdf
                  = resolveDistrict names (i0 + 1 + i) d'.pdf) := by
            intro i d' hd' he
            apply hnotin
            rw [he]
            exact List.getElem?_mem (districtsFrom_getElem names pre' (i0 + 1) i d' hd')
          constructor
          · rw [abortFold_lookup_notmem outDir names pre' (i0 + 1) _ _ ?_]
            · unfold docWrites
              rw [FS.lookup_write_ne _ _ _ _ (raw_ne_json outDir _ outDir _)]
              exact FS.lookup_write_self _ _ _
            · intro i d' hd'
              exact ⟨rawPath_ne_of_district outDir _ _ (hDne i d' hd'),
                raw_ne_json outDir _ outDir _⟩
          · rw [abortFold_lookup_notmem outDir names pre' (i0 + 1) _ _ ?_]
            · unfold docWrites
              exact FS.lookup_write_self _ _ _
            · intro i d' hd'
              refine ⟨?_, jsonPath_ne_of_district outDir _ _ (hDne i d' hd')⟩
              intro he
              exact raw_ne_json outDir _ outDir _ he.symm
      | succ k' =>
          have hk' : pre'[k']? = some d := by simpa using hk
          simp only [abortFold]
          have hres := ih (i0 + 1)
            (docWrites outDir (resolveDistrict names i0 d0.pdf) d0 fs) k' d hk' hnd'
          rw [show i0 + (k' + 1) = i0 + 1 + k' from by omega]
          exact hres

/-- C6 (amended): when the first failure is a parse failure at document
`bad` after a clean prefix `pre`, the run aborts exactly there and no later
document is processed; `scores.csv` is never written, `scores.json` is
absent provided no successful district is literally named `scores` (whose
per-district file would be `<out>/scores.json`), and the earlier documents'
raw/json artifacts are intact provided the resolved district names are
pairwise distinct (a duplicate name is overwritten, as C10 records). -/
theorem abort_no_aggregate_amended (outDir : String) (names : Option (List String))
    (pre : List Doc) (bad : Doc) (rest : List Doc)
    (hok : ∀ d ∈ pre, stepOk d)
    (hbad : parse_possible_json bad.reply = none)
    (hnd : (districtsFrom names 0 (pre ++ [bad])).Nodup)
    (hscores : ¬("scores" ∈ districtsFrom names 0 pre)) :
    ∃ fs, runBatch outDir names (pre ++ bad :: rest) = RunOutcome.aborted fs pre.length
      ∧ FS.lookup fs (outDir ++ "/scores.csv") = none
      ∧ FS.lookup fs (outDir ++ "/scores.json") = none
      ∧ (∀ (i : Nat) (d : Doc), pre[i]? = some d →
          FS.lookup fs (rawPath outDir (resolveDistrict names i d.pdf))
              = some (rawContent d.reply)
          ∧ FS.lookup fs (jsonPath outDir (resolveDistrict names i d.pdf))
              = some (json_dumps (parsedOf d)))
      ∧ FS.lookup fs (rawPath outDir (resolveDistrict names pre.length bad.pdf))
          = some (rawContent bad.reply) := by
  have heq := runAux_abort_eq outDir names bad rest hbad pre 0 [] [] hok
  simp only [Nat.zero_add] at heq
  rw [districtsFrom_append names pre [bad] 0] at hnd
  simp only [Nat.zero_add, districtsFrom] at hnd
  rw [List.nodup_append] at hnd
  obtain ⟨hndpre, _, hdisj⟩ := hnd
  have hbadne : ∀ (i : Nat) (d : Doc), pre[i]? = some d →
      ¬(resolveDistrict names i d.pdf = resolveDistrict names pre.length bad.pdf) := by
    intro i d hd he
    have hmem : resolveDistrict names i d.pdf ∈ districtsFrom names 0 pre := by
      have := districtsFrom_getElem names pre 0 i d hd
      rw [Nat.zero_add] at this
      exact List.getElem?_mem this
    exact hdisj hmem (by rw [he]; simp)
  refine ⟨_, heq, ?_, ?_, ?_, ?_⟩
  · rw [FS.lookup_write_ne _ _ _ _ (fun h => raw_ne_csv outDir _ outDir h.symm)]
    rw [abortFold_lookup_notmem outDir names pre 0 [] _ ?_]
    · rfl
    · intro i d _
      exact ⟨fun h => raw_ne_csv outDir _ outDir h.symm,
        fun h => json_ne_csv outDir _ outDir h.symm⟩
  · rw [FS.lookup_write_ne _ _ _ _ (fun h => raw_ne_scoresJson outDir _ outDir h.symm)]
    rw [abortFold_lookup_notmem outDir names pre 0 [] _ ?_]
    · rfl
    · intro i d hd
      refine ⟨fun h => raw_ne_scoresJson outDir _ outDir h.symm, ?_⟩
      have hDi : resolveDistrict names (0 + i) d.pdf ∈ districtsFrom names 0 pre := by
        have := districtsFrom_getElem names pre 0 i d hd
        exact List.getElem?_mem this
      intro h
      refine json_ne_scoresJson outDir _ (fun hds => hscores ?_) h.symm
      rw [← hds]
      exact hDi
  · intro i d hd
    have hdoc := abortFold_lookup_doc outDir names pre 0 [] i d hd hndpre
    rw [Nat.zero_add] at hdoc
    constructor
    · rw [FS.lookup_write_ne _ _ _ _ (rawPath_ne_of_district outDir _ _ (hbadne i d hd))]
      exact hdoc.1
    · rw [FS.lookup_write_ne _ _ _ _ (fun h => raw_ne_json outDir _ outDir _ h.symm)]
      exact hdoc.2
  · exact FS.lookup_write_self _ _ _

/-- A minimal reply that parses and projects successfully. -/
def c6OkReply : String := "\x7b\"district\": \"d\", \"scores\": \x7b\x7d\x7d"

/-- C6 (counterexample): in a batch whose second document fails to parse,
a first document whose district is literally named `scores` leaves
`<out>/scores.json` on disk (its per-district file), contradicting
"scores.json is not written at all". -/
theorem abort_scores_json_cex :
    (runBatch "out" (some ["scores", "B"])
        [Doc.mk "a.pdf" c6OkReply, Doc.mk "b.pdf" "x"]).abortIdx = some 1
    ∧ parse_possible_json "x" = none
    ∧ FS.lookup (runBatch "out" (some ["scores", "B"])
          [Doc.mk "a.pdf" c6OkReply, Doc.mk "b.pdf" "x"]).fsOf "out/scores.json"
        = some (json_dumps (Json.obj [("district", Json.str "d"), ("scores", Json.obj [])])) :=
  ⟨rfl, rfl, rfl⟩

/-- Witness for C6's amended theorem on a concrete two-document batch. -/
theorem abort_no_aggregate_amended_witness :
    ∃ fs, runBatch "out" none [Doc.mk "a.pdf" c6OkReply, Doc.mk "b.pdf" "x"]
        = RunOutcome.aborted fs 1
      ∧ FS.lookup fs ("out" ++ "/scores.csv") = none
      ∧ FS.lookup fs ("out" ++ "/scores.json") = none
      ∧ (∀ (i : Nat) (d : Doc), [Doc.mk "a.pdf" c6OkReply][i]? = some d →
          FS.lookup fs (rawPath "out" (resolveDistrict none i d.pdf))
              = some (rawContent d.reply)
          ∧ FS.lookup fs (jsonPath "out" (resolveDistrict none i d.pdf))
              = some (json_dumps (parsedOf d)))
      ∧ FS.lookup fs (rawPath "out" (resolveDistrict none 1 "b.pdf"))
          = some (rawContent "x") :=
  abort_no_aggregate_amended "out" none [Doc.mk "a.pdf" c6OkReply] (Doc.mk "b.pdf" "x") []
    (fun d hd => by
      rw [List.mem_singleton] at hd
      subst hd
      exact ⟨Json.obj [("district", Json.str "d"), ("scores", Json.obj [])],
        [[("district", Json.str "d")]], rfl, rfl⟩)
    rfl (by decide) (by decide)

/-! ### C10: duplicate district names -/

/-- C10: when two documents of a batch resolve to the same district name,
the later document's processing overwrites the earlier one's raw and json
files — the first document's own output paths end up holding the second
document's data (the json content provided the shared name is not
`scores`, whose path the aggregate write reuses) — while the aggregate
still receives one row from each document. -/
theorem duplicate_district_overwrite (outDir : String) (names : Option (List String))
    (d1 d2 : Doc) (o1 o2 : Json) (r1 r2 : Dict)
    (hD : resolveDistrict names 0 d1.pdf = resolveDistrict names 1 d2.pdf)
    (h1 : parse_possible_json d1.reply = some o1) (h1r : to_rows o1 = some [r1])
    (h2 : parse_possible_json d2.reply = some o2) (h2r : to_rows o2 = some [r2]) :
    (runBatch outDir names [d1, d2]).rowsOf = some [r1, r2]
    ∧ FS.lookup (runBatch outDir names [d1, d2]).fsOf
        (rawPath outDir (resolveDistrict names 0 d1.pdf)) = some (rawContent d2.reply)
    ∧ (¬(resolveDistrict names 0 d1.pdf = "scores") →
        FS.lookup (runBatch outDir names [d1, d2]).fsOf
          (jsonPath outDir (resolveDistrict names 0 d1.pdf)) = some (json_dumps o2)) := by
  rw [hD]
  have hstep1 : processDoc outDir (resolveDistrict names 0 d1.pdf) d1.reply []
      = StepRes.ok (FS.write (FS.write []
          (rawPath outDir (resolveDistrict names 0 d1.pdf)) (rawContent d1.reply))
          (jsonPath outDir (resolveDistrict names 0 d1.pdf)) (json_dumps o1)) [r1] := by
    simp [processDoc, h1, h1r]
  have hstep2 : ∀ fs, processDoc outDir (resolveDistrict names 1 d2.pdf) d2.reply fs
      = StepRes.ok (FS.write (FS.write fs
          (rawPath outDir (resolveDistrict names 1 d2.pdf)) (rawContent d2.reply))
          (jsonPath outDir (resolveDistrict names 1 d2.pdf)) (json_dumps o2)) [r2] := by
    intro fs
    simp [processDoc, h2, h2r]
  have hrun : runBatch outDir names [d1, d2]
      = RunOutcome.completed
          (FS.write
            (FS.write
              (FS.write
                (FS.write
                  (FS.write (FS.write []
                    (rawPath outDir (resolveDistrict names 0 d1.pdf)) (rawContent d1.reply))
                    (jsonPath outDir (resolveDistrict names 0 d1.pdf)) (json_dumps o1))
                  (rawPath outDir (resolveDistrict names 1 d2.pdf)) (rawContent d2.reply))
                (jsonPath outDir (resolveDistrict names 1 d2.pdf)) (json_dumps o2))
              (outDir ++ "/scores.csv") (csv_dump [r1, r2]))
            (outDir ++ "/scores.json") (json_dumps (.arr ([r1, r2].map Json.obj))))
          [r1, r2] := by
    unfold runBatch
    simp only [runAux, hstep1, hstep2, List.nil_append, List.singleton_append]
  refine ⟨?_, ?_, ?_⟩
  · rw [hrun]
    rfl
  · rw [hrun]
    simp only [RunOutcome.fsOf]
    rw [FS.lookup_write_ne _ _ _ _ (raw_ne_scoresJson outDir _ outDir),
      FS.lookup_write_ne _ _ _ _ (raw_ne_csv outDir _ outDir),
      FS.lookup_write_ne _ _ _ _ (raw_ne_json outDir _ outDir _)]
    exact FS.lookup_write_self _ _ _
  · intro hns
    rw [hrun]
    simp only [RunOutcome.fsOf]
    rw [FS.lookup_write_ne _ _ _ _ (json_ne_scoresJson outDir _ hns),
      FS.lookup_write_ne _ _ _ _ (json_ne_csv outDir _ outDir)]
    exact FS.lookup_write_self _ _ _

/-- Replies used by the C10 witness. -/
def c10Reply1 : String := "\x7b\"district\": \"X1\", \"scores\": \x7b\x7d\x7d"

def c10Reply2 : String := "\x7b\"district\": \"X2\", \"scores\": \x7b\x7d\x7d"

/-- Witness for C10: two documents given the same supplied name `X`. -/
theorem duplicate_district_overwrite_witness :
    (runBatch "out" (some ["X", "X"])
        [Doc.mk "a.pdf" c10Reply1, Doc.mk "b.pdf" c10Reply2]).rowsOf
      = some [[("district", Json.str "X1")], [("district", Json.str "X2")]]
    ∧ FS.lookup (runBatch "out" (some ["X", "X"])
          [Doc.mk "a.pdf" c10Reply1, Doc.mk "b.pdf" c10Reply2]).fsOf
        (rawPath "out" (resolveDistrict (some ["X", "X"]) 0 "a.pdf"))
        = some (rawContent c10Reply2)
    ∧ (¬(resolveDistrict (some ["X", "X"]) 0 "a.pdf" = "scores") →
        FS.lookup (runBatch "out" (some ["X", "X"])
            [Doc.mk "a.pdf" c10Reply1, Doc.mk "b.pdf" c10Reply2]).fsOf
          (jsonPath "out" (resolveDistrict (some ["X", "X"]) 0 "a.pdf"))
          = some (json_dumps (Json.obj [("district", Json.str "X2"),
              ("scores", Json.obj [])]))) :=
  duplicate_district_overwrite "out" (some ["X", "X"])
    (Doc.mk "a.pdf" c10Reply1) (Doc.mk "b.pdf" c10Reply2)
    (Json.obj [("district", Json.str "X1"), ("scores", Json.obj [])])
    (Json.obj [("district", Json.str "X2"), ("scores", Json.obj [])])
    [("district", Json.str "X1")] [("district", Json.str "X2")]
    rfl rfl rfl rfl rfl

/-! ### C2: the row schema is data-driven -/

/-- A reply scoring a single non-canonical category. -/
def c2Reply : String :=
  "\x7b\"district\": \"d\", \"scores\": \x7b\"Energy\": \x7b\"score\": 2, \"justification\": \"ok\"\x7d\x7d\x7d"

/-- C2 (counterexample): a one-document batch whose parsed reply scores a
single non-canonical category appends a Row whose column set is not the
fixed `district` + two-per-category schema — the columns follow the parsed
keys. -/
theorem to_rows_columns_cex :
    (runBatch "out" none [Doc.mk "a.pdf" c2Reply]).rowsOf
      = some [[("district", Json.str "d"), ("Energy", Json.num 2),
          ("Energy — why", Json.str "ok")]]
    ∧ ["district", "Energy", "Energy — why"] ≠ canonicalColumns :=
  ⟨rfl, by decide⟩
